import Mathlib

/-!
Shallow embedding of the core trading components of the repository:

* `HFT` — the array-ladder limit order book of
  `HFT-System-CPP/src/market_data/order_book.cpp` (+ `order_book.hpp`):
  `addOrder`, `matchOrder`, `addToBook`, `modifyOrder`, `updateBestPrices`,
  `executeTrade`.
* `Pool` — the free-list memory pool of
  `HFT-System-CPP/include/core/memory_pool.hpp` (`allocate`, `expandPool`,
  `deallocate`).
* `Ring` — the SPSC ring of `HFT-System-CPP/include/core/lock_free_queue.hpp`
  (`push`, `pop`).
* `Engine` — the toy matcher of `OrderBook-Engine/orderbook.cpp`
  (`matchOrder` over `std::map` ladders of `std::queue`s).

Machine integers are embedded as `Nat` with explicit wraparound where the
source can wrap (the `size_t level_idx = price - base_price_` computation);
`uint32` quantity arithmetic in the source only ever subtracts a quantity
bounded by the minuend on the paths modelled here, so truncated `Nat`
subtraction agrees with it.  The nanosecond clock is modelled as the
constant 0: no claim concerns time.  Linked `OrderNode` lists are embedded
as `List Order` (head = oldest); the `order_id -> OrderNode*` directory is
embedded as the list of booked ids, with node fields read through the
level that owns the node (a node is owned by exactly one level).
-/

inductive Side where
  | buy
  | sell
deriving DecidableEq, Repr

/-- Executable check that a list of naturals is strictly increasing from
front to back (used to state the oldest-first FIFO discipline of a price
level: ids are assigned in arrival order). -/
def strictlyIncreasing : List Nat → Bool
  | [] => true
  | [_] => true
  | a :: b :: rest => decide (a < b) && strictlyIncreasing (b :: rest)

namespace HFT

/-- Modulus of the 64-bit unsigned integers used for prices and indices. -/
def U64 : Nat := 2 ^ 64

/-- Sentinel used by the source for "no ask": `UINT64_MAX`. -/
def UINT64_MAX : Nat := 2 ^ 64 - 1

/-- Order record of `order_book.hpp` (`order_id`, `price` in ticks,
`quantity`, `side`, `timestamp`). -/
structure Order where
  order_id : Nat
  price : Nat
  quantity : Nat
  side : Side
  timestamp : Nat
deriving DecidableEq, Repr

/-- Trade record of `order_book.hpp`. -/
structure Trade where
  buy_order_id : Nat
  sell_order_id : Nat
  price : Nat
  quantity : Nat
  timestamp : Nat
deriving DecidableEq, Repr

/-- PriceLevel of `order_book.hpp`: cached `price`, `total_quantity`,
`order_count`, and the FIFO of resident orders (head first, i.e. the
`head -> ... -> tail` intrusive list as a `List`). -/
structure PriceLevel where
  price : Nat
  total_quantity : Nat
  order_count : Nat
  orders : List Order
deriving DecidableEq, Repr

/-- Freshly zero-initialised price level (`PriceLevel{}` in the source). -/
def emptyLevel : PriceLevel :=
  { price := 0, total_quantity := 0, order_count := 0, orders := [] }

/-- OrderBook state: the two dense ladders (`bid_levels_`, `ask_levels_`,
each of `MAX_PRICE_LEVELS` cells in the source; here of length
`bids.length = asks.length`), the cached best prices, `base_price_`, the
id directory `order_map_` (modelled as the list of booked ids), and the
trade statistics. -/
structure OrderBook where
  bids : List PriceLevel
  asks : List PriceLevel
  best_bid : Nat
  best_ask : Nat
  base_price : Nat
  order_map : List Nat
  total_volume : Nat
  trade_count : Nat
deriving DecidableEq, Repr

/-- Fresh book with `numLevels` zeroed cells per side (the source fixes
`MAX_PRICE_LEVELS = 20000` and `base_price_ = 10000`; the embedding keeps
them as parameters). -/
def mkBook (numLevels base : Nat) : OrderBook :=
  { bids := List.replicate numLevels emptyLevel
    asks := List.replicate numLevels emptyLevel
    best_bid := 0
    best_ask := UINT64_MAX
    base_price := base
    order_map := []
    total_volume := 0
    trade_count := 0 }

/-- Level index computation `price - base_price_` on unsigned 64-bit
arithmetic: wraps modulo `2 ^ 64` when `price < base` (the source then
rejects the huge index against `MAX_PRICE_LEVELS`). -/
def levelIdx (base price : Nat) : Nat :=
  (price + (U64 - base % U64)) % U64

/-- Scan for the first level with a resident order and report its cached
price (the ladder-scan bodies of `updateBestPrices`). -/
def scanBest : List PriceLevel → Option Nat
  | [] => none
  | l :: rest => if 0 < l.order_count then some l.price else scanBest rest

/-- OrderBook::updateBestPrices: best bid is the price of the occupied
cell with the highest index (scan from `MAX_PRICE_LEVELS - 1` down, i.e.
the reversed ladder), best ask the one with the lowest index; sentinels
`0` and `UINT64_MAX` when a side is empty. -/
def updateBestPrices (b : OrderBook) : OrderBook :=
  { b with
    best_bid := (scanBest b.bids.reverse).getD 0
    best_ask := (scanBest b.asks).getD UINT64_MAX }

/-- OrderBook::executeTrade: build the trade record; the price field is
the passive (resting) node's own price. -/
def executeTrade (passive aggressive : Order) (trade_qty : Nat) : Trade :=
  { buy_order_id :=
      if passive.side = Side.buy then passive.order_id else aggressive.order_id
    sell_order_id :=
      if passive.side = Side.sell then passive.order_id else aggressive.order_id
    price := passive.price
    quantity := trade_qty
    timestamp := 0 }

/-- OrderBook::removeFromBook specialised to the head node (the only node
the matching loop removes): unlink the head; when the level becomes empty
reset its cached `price` and `total_quantity`. -/
def removeHeadLevel (l : PriceLevel) : PriceLevel :=
  let oc := l.order_count - 1
  if oc = 0 then
    { price := 0, total_quantity := 0, order_count := 0, orders := l.orders.tail }
  else
    { l with orders := l.orders.tail, order_count := oc }

/-- Erase an id from the directory (`order_map_.erase`). -/
def eraseId (m : List Nat) (id : Nat) : List Nat :=
  m.filter (fun x => x != id)

/-- Insert an id into the directory (`order_map_[id] = node`). -/
def insertId (m : List Nat) (id : Nat) : List Nat :=
  if id ∈ m then m else id :: m

/-- Sum of resident-order list lengths of a ladder; used only to size the
fuel of the matching loop. -/
def ladderLen (ls : List PriceLevel) : Nat :=
  (ls.map (fun l => l.orders.length)).sum

/-- Buy branch of OrderBook::matchOrder: while the aggressor has quantity,
the cached `best_ask_` is not the sentinel and `order.price >= best_ask_`,
consume the head of the level at index `best_ask_ - base_price_`.  The
loop `break`s when the index is out of range, and — after refreshing the
best prices — when the indexed level has no head (note: the cached
`best_ask_` is NOT refreshed after the head removal empties a level, so
this `break` fires on the very next iteration instead of walking to the
next level).  Each recursive call strictly decreases
`order.quantity + (number of resident ask nodes)`, so the fuel chosen by
`matchOrder` below can never run out and the recursion equals the source
`while` loop. -/
def matchLoopBuy : Nat → OrderBook → Order → List Trade →
    OrderBook × Order × List Trade
  | 0, b, o, tr => (b, o, tr)
  | fuel + 1, b, o, tr =>
    if 0 < o.quantity ∧ b.best_ask ≠ UINT64_MAX ∧ b.best_ask ≤ o.price then
      let idx := levelIdx b.base_price b.best_ask
      if b.asks.length ≤ idx then (b, o, tr)
      else
        let level := b.asks.getD idx emptyLevel
        match level.orders with
        | [] => (updateBestPrices b, o, tr)
        | node :: rest =>
          let trade_qty := min o.quantity node.quantity
          let t := executeTrade node o trade_qty
          let node2 := { node with quantity := node.quantity - trade_qty }
          let o2 := { o with quantity := o.quantity - trade_qty }
          let level2 :=
            { level with
              total_quantity := level.total_quantity - trade_qty
              orders := node2 :: rest }
          let b2 :=
            { b with
              total_volume := b.total_volume + trade_qty
              trade_count := b.trade_count + 1 }
          let b3 :=
            if node2.quantity = 0 then
              { b2 with
                asks := b2.asks.set idx (removeHeadLevel level2)
                order_map := eraseId b2.order_map node.order_id }
            else { b2 with asks := b2.asks.set idx level2 }
          matchLoopBuy fuel b3 o2 (tr ++ [t])
    else (b, o, tr)

/-- Sell branch of OrderBook::matchOrder: symmetric to the buy branch,
against the bid ladder, guarded by `best_bid_ != 0 && order.price <=
best_bid_`. -/
def matchLoopSell : Nat → OrderBook → Order → List Trade →
    OrderBook × Order × List Trade
  | 0, b, o, tr => (b, o, tr)
  | fuel + 1, b, o, tr =>
    if 0 < o.quantity ∧ b.best_bid ≠ 0 ∧ o.price ≤ b.best_bid then
      let idx := levelIdx b.base_price b.best_bid
      if b.bids.length ≤ idx then (b, o, tr)
      else
        let level := b.bids.getD idx emptyLevel
        match level.orders with
        | [] => (updateBestPrices b, o, tr)
        | node :: rest =>
          let trade_qty := min o.quantity node.quantity
          let t := executeTrade node o trade_qty
          let node2 := { node with quantity := node.quantity - trade_qty }
          let o2 := { o with quantity := o.quantity - trade_qty }
          let level2 :=
            { level with
              total_quantity := level.total_quantity - trade_qty
              orders := node2 :: rest }
          let b2 :=
            { b with
              total_volume := b.total_volume + trade_qty
              trade_count := b.trade_count + 1 }
          let b3 :=
            if node2.quantity = 0 then
              { b2 with
                bids := b2.bids.set idx (removeHeadLevel level2)
                order_map := eraseId b2.order_map node.order_id }
            else { b2 with bids := b2.bids.set idx level2 }
          matchLoopSell fuel b3 o2 (tr ++ [t])
    else (b, o, tr)

/-- OrderBook::matchOrder: run the side's loop, then unconditionally
refresh the cached best prices (line 83 of the source), returning the
mutated book, the residual aggressor and the emitted trades. -/
def matchOrder (b : OrderBook) (o : Order) : OrderBook × Order × List Trade :=
  let r :=
    match o.side with
    | Side.buy => matchLoopBuy (o.quantity + ladderLen b.asks + 1) b o []
    | Side.sell => matchLoopSell (o.quantity + ladderLen b.bids + 1) b o []
  (updateBestPrices r.1, r.2.1, r.2.2)

/-- Append a node at the tail of a level and refresh the level's cached
fields (the list-splice part of OrderBook::addToBook). -/
def appendLevel (l : PriceLevel) (o : Order) : PriceLevel :=
  { price := o.price
    total_quantity := l.total_quantity + o.quantity
    order_count := l.order_count + 1
    orders := l.orders ++ [o] }

/-- OrderBook::addToBook: silently return when `price - base_price_` falls
outside the ladder (`level_idx >= MAX_PRICE_LEVELS`); otherwise append the
node at the tail of its level, record the id in the directory and refresh
the best prices.  Both source ladders have the same length, so the bound
is checked against the ladder of the order's side. -/
def addToBook (b : OrderBook) (o : Order) : OrderBook :=
  let idx := levelIdx b.base_price o.price
  match o.side with
  | Side.buy =>
    if b.bids.length ≤ idx then b
    else
      updateBestPrices
        { b with
          bids := b.bids.set idx (appendLevel (b.bids.getD idx emptyLevel) o)
          order_map := insertId b.order_map o.order_id }
  | Side.sell =>
    if b.asks.length ≤ idx then b
    else
      updateBestPrices
        { b with
          asks := b.asks.set idx (appendLevel (b.asks.getD idx emptyLevel) o)
          order_map := insertId b.order_map o.order_id }

/-- OrderBook::addOrder: match the incoming order, book any residual
quantity, and return `true` unconditionally (paired here with the book
and the emitted trades). -/
def addOrder (b : OrderBook) (o : Order) : Bool × OrderBook × List Trade :=
  let r := matchOrder b o
  let b2 := if 0 < r.2.1.quantity then addToBook r.1 r.2.1 else r.1
  (true, b2, r.2.2)

/-- Replace the quantity of the node with the given id (the in-place
`node->order.quantity = new_quantity` of OrderBook::modifyOrder). -/
def setQty (orders : List Order) (oid newq : Nat) : List Order :=
  orders.map (fun x => if x.order_id = oid then { x with quantity := newq } else x)

/-- Current quantity of the node with the given id, when resident. -/
def findQty (orders : List Order) (oid : Nat) : Option Nat :=
  (orders.find? (fun x => x.order_id == oid)).map (fun x => x.quantity)

/-- Locate the level owning the node with the given id and update that
node's quantity in place, adjusting the level's `total_quantity` by
`total - old + new` exactly as the source does; `none` when no level of
this ladder owns the id. -/
def modifyLadder : List PriceLevel → Nat → Nat → Option (List PriceLevel)
  | [], _, _ => none
  | l :: rest, oid, newq =>
    match findQty l.orders oid with
    | some q =>
      some ({ l with
              total_quantity := l.total_quantity - q + newq
              orders := setQty l.orders oid newq } :: rest)
    | none => (modifyLadder rest oid newq).map (fun ls => l :: ls)

/-- OrderBook::modifyOrder (order_id, new_quantity): look the node up via
the directory (modelled by searching the ladders for the unique resident
node with this id), return `false` when absent, otherwise update the
node's quantity and its level's total in place — no unlinking, no price
argument, no re-submission. -/
def modifyOrder (b : OrderBook) (oid newq : Nat) : Bool × OrderBook :=
  match modifyLadder b.bids oid newq with
  | some bids2 => (true, { b with bids := bids2 })
  | none =>
    match modifyLadder b.asks oid newq with
    | some asks2 => (true, { b with asks := asks2 })
    | none => (false, b)

/-- Fold a list of incoming orders through `addOrder`, keeping the book. -/
def applyOrders (b : OrderBook) (os : List Order) : OrderBook :=
  os.foldl (fun bk o => (addOrder bk o).2.1) b

/-- All orders resident in a ladder, head-of-level first. -/
def allOrders (ls : List PriceLevel) : List Order :=
  (ls.map PriceLevel.orders).flatten

/-- Resting orders an aggressor of the given side matches against. -/
def passiveOrders (b : OrderBook) : Side → List Order
  | Side.buy => allOrders b.asks
  | Side.sell => allOrders b.bids

/-- Ids of a level's resident orders, head to tail. -/
def levelIds (l : PriceLevel) : List Nat :=
  l.orders.map (fun x => x.order_id)

/-- Oldest-first discipline of one level: ids strictly increase from head
to tail (ids are assigned in arrival order by the callers). -/
def levelSorted (l : PriceLevel) : Prop :=
  strictlyIncreasing (levelIds l) = true

/-- Every level of the ladder is oldest-first. -/
def ladderSorted (ls : List PriceLevel) : Prop :=
  ∀ l ∈ ls, levelSorted l

/-- Both sides of the book are oldest-first within each level. -/
def bookSorted (b : OrderBook) : Prop :=
  ladderSorted b.bids ∧ ladderSorted b.asks

/-- All ids resident in a ladder. -/
def ladderIds (ls : List PriceLevel) : List Nat :=
  (ls.map levelIds).flatten

/-- All ids resident in the book. -/
def bookIds (b : OrderBook) : List Nat :=
  ladderIds b.bids ++ ladderIds b.asks

instance instDecLevelSorted (l : PriceLevel) : Decidable (levelSorted l) :=
  inferInstanceAs (Decidable (strictlyIncreasing (levelIds l) = true))

instance instDecLadderSorted (ls : List PriceLevel) : Decidable (ladderSorted ls) :=
  inferInstanceAs (Decidable (∀ l ∈ ls, levelSorted l))

instance instDecBookSorted (b : OrderBook) : Decidable (bookSorted b) :=
  inferInstanceAs (Decidable (ladderSorted b.bids ∧ ladderSorted b.asks))

/-- Total quantity of a trade list. -/
def sumQty (ts : List Trade) : Nat :=
  (ts.map (fun t => t.quantity)).sum

/-- Book reached by resting asks 30@101 and 40@102 and then submitting a
buy of 100 at 103 (ladder of 5 cells based at 100). -/
def crossedBook : OrderBook :=
  applyOrders (mkBook 5 100)
    [ { order_id := 11, price := 101, quantity := 30, side := Side.sell, timestamp := 0 }
    , { order_id := 12, price := 102, quantity := 40, side := Side.sell, timestamp := 0 }
    , { order_id := 13, price := 103, quantity := 100, side := Side.buy, timestamp := 0 } ]

/-- Book holding resting asks 30@101, 40@102 and 50@103. -/
def walkBase : OrderBook :=
  applyOrders (mkBook 5 100)
    [ { order_id := 21, price := 101, quantity := 30, side := Side.sell, timestamp := 0 }
    , { order_id := 22, price := 102, quantity := 40, side := Side.sell, timestamp := 0 }
    , { order_id := 23, price := 103, quantity := 50, side := Side.sell, timestamp := 0 } ]

/-- Result of submitting a buy of 100 at 103 into `walkBase`. -/
def walkRes : Bool × OrderBook × List Trade :=
  addOrder walkBase
    { order_id := 24, price := 103, quantity := 100, side := Side.buy, timestamp := 0 }

/-- Book holding two resting bids at 50: id 1 (qty 10) then id 2 (qty 5),
ladder of 5 cells based at 48. -/
def twoBidsBook : OrderBook :=
  applyOrders (mkBook 5 48)
    [ { order_id := 1, price := 50, quantity := 10, side := Side.buy, timestamp := 0 }
    , { order_id := 2, price := 50, quantity := 5, side := Side.buy, timestamp := 0 } ]

/-- Book reached from `twoBidsBook` by a sell of 4 at 50: the head bid
(id 1) is partially filled. -/
def partialFillBook : OrderBook :=
  (addOrder twoBidsBook
    { order_id := 3, price := 50, quantity := 4, side := Side.sell, timestamp := 0 }).2.1

/-- Book with a single resting bid of 100 at 50 (ladder of 5 cells based
at 48). -/
def oneBidBook : OrderBook :=
  applyOrders (mkBook 5 48)
    [ { order_id := 1, price := 50, quantity := 100, side := Side.buy, timestamp := 0 } ]

end HFT

namespace Pool

/-- MemoryPool state of `memory_pool.hpp`: the intrusive free list over
cells (cells named by integers), the heap blocks allocated so far
(`blocks_.size()`), and a counter naming fresh cells.  The template
parameter `BlockSize` (source default 4096) is passed explicitly. -/
structure MemoryPool where
  free_list : List Nat
  blocks : Nat
  next_cell : Nat
deriving DecidableEq, Repr

/-- MemoryPool::expandPool: heap-allocate a block of `blockSize` fresh
cells, chain them in index order and push the chain in front of the old
free list. -/
def expandPool (blockSize : Nat) (p : MemoryPool) : MemoryPool :=
  { free_list := (List.range blockSize).map (fun i => p.next_cell + i) ++ p.free_list
    blocks := p.blocks + 1
    next_cell := p.next_cell + blockSize }

/-- MemoryPool constructor: one initial `expandPool`. -/
def mkPool (blockSize : Nat) : MemoryPool :=
  expandPool blockSize { free_list := [], blocks := 0, next_cell := 0 }

/-- MemoryPool::allocate: when the free list is empty, `expandPool` first
(a heap allocation); then pop the head of the free list.  The function
always returns a cell — there is no failure value.  (The `[]` fallback is
unreachable once `0 < blockSize`.) -/
def allocate (blockSize : Nat) (p : MemoryPool) : Nat × MemoryPool :=
  let p2 := if p.free_list = [] then expandPool blockSize p else p
  match p2.free_list with
  | c :: rest => (c, { p2 with free_list := rest })
  | [] => (0, p2)

/-- MemoryPool::deallocate: push the cell back onto the free list. -/
def deallocate (p : MemoryPool) (c : Nat) : MemoryPool :=
  { p with free_list := c :: p.free_list }

/-- Allocate `n` times, dropping the returned cells. -/
def allocN (blockSize : Nat) (p : MemoryPool) : Nat → MemoryPool
  | 0 => p
  | n + 1 => allocN blockSize (allocate blockSize p).2 n

/-- Fresh pool of block size 4 with all four cells handed out: its free
list is empty. -/
def drainedPool : MemoryPool := allocN 4 (mkPool 4) 4

end Pool

namespace Ring

/-- LockFreeQueue state of `lock_free_queue.hpp`: `head_`, `tail_` (stored
already moduloed into `[0, Size)`) and the slot buffer.  The payload is
embedded as `Nat`; the template parameter `Size` (a power of two,
source default 65536) is passed explicitly. -/
structure LockFreeQueue where
  head : Nat
  tail : Nat
  buffer : List Nat
deriving DecidableEq, Repr

/-- Fresh queue: `head_ = tail_ = 0`, `Size` zeroed slots. -/
def mkQueue (size : Nat) : LockFreeQueue :=
  { head := 0, tail := 0, buffer := List.replicate size 0 }

/-- LockFreeQueue::push: compute `next_tail = (tail + 1) & (Size - 1)`;
report full (and change nothing) when `next_tail == head`; otherwise
store into the slot at `tail` and publish `next_tail`. -/
def push (size : Nat) (q : LockFreeQueue) (item : Nat) : Bool × LockFreeQueue :=
  let current_tail := q.tail
  let next_tail := (current_tail + 1) &&& (size - 1)
  if next_tail = q.head then (false, q)
  else (true, { q with buffer := q.buffer.set current_tail item, tail := next_tail })

/-- LockFreeQueue::pop: report empty when `head == tail`; otherwise read
the slot at `head` and publish `(head + 1) & (Size - 1)`. -/
def pop (size : Nat) (q : LockFreeQueue) : Option Nat × LockFreeQueue :=
  let current_head := q.head
  if current_head = q.tail then (none, q)
  else
    (some (q.buffer.getD current_head 0),
     { q with head := (current_head + 1) &&& (size - 1) })

/-- Push a list of items in order, collecting each push's result flag. -/
def pushList (size : Nat) (q : LockFreeQueue) : List Nat → List Bool × LockFreeQueue
  | [] => ([], q)
  | x :: xs =>
    let r := push size q x
    let r2 := pushList size r.2 xs
    (r.1 :: r2.1, r2.2)

end Ring

namespace Engine

/-- Order record of `OrderBook-Engine/orderbook.cpp` (`{int id; string
side; double price; int qty}`): the side tag replaces the string, the
price is embedded as integer ticks (every use in the source is an order
comparison or an exact copy, both exact on integral doubles), and the
quantities are the non-negative ints the program uses. -/
structure EOrder where
  id : Nat
  side : Side
  price : Nat
  qty : Nat
deriving DecidableEq, Repr

/-- Global book of the engine: `map<double, queue<Order>, greater<>> bids`
and `map<double, queue<Order>, less<>> asks`, embedded as price-sorted
association lists (bids descending, asks ascending), each price paired
with its FIFO queue (front of the queue first). -/
structure EBook where
  bids : List (Nat × List EOrder)
  asks : List (Nat × List EOrder)
deriving DecidableEq, Repr

/-- Empty engine book. -/
def engineEmpty : EBook := { bids := [], asks := [] }

/-- Number of resident orders across a ladder (fuel bound only). -/
def engineTotal (ls : List (Nat × List EOrder)) : Nat :=
  (ls.map (fun pl => pl.2.length)).sum

/-- bids[price].push(order): descending-key map insertion followed by a
push at the back of the queue at that key. -/
def enginePushBid : List (Nat × List EOrder) → EOrder → List (Nat × List EOrder)
  | [], o => [(o.price, [o])]
  | (p, q) :: rest, o =>
    if o.price = p then (p, q ++ [o]) :: rest
    else if p < o.price then (o.price, [o]) :: (p, q) :: rest
    else (p, q) :: enginePushBid rest o

/-- asks[price].push(order): ascending-key map insertion followed by a
push at the back of the queue at that key. -/
def enginePushAsk : List (Nat × List EOrder) → EOrder → List (Nat × List EOrder)
  | [], o => [(o.price, [o])]
  | (p, q) :: rest, o =>
    if o.price = p then (p, q ++ [o]) :: rest
    else if o.price < p then (o.price, [o]) :: (p, q) :: rest
    else (p, q) :: enginePushAsk rest o

/-- Buy branch of the engine's matchOrder: while the aggressor has
quantity and the best (lowest) ask price is `<= o.price`, pop the front
of that queue, trade `min` quantity at the passive order's price, and —
crucially — push the passive order BACK ONTO THE TAIL of the queue when
it still has quantity; erase the level when its queue empties.  Trades
are collected as `(qty, price)` pairs (the source prints them).  Each
recursive call strictly decreases `o.qty + resident orders`, so the fuel
chosen below never runs out. -/
def engineBuyLoop : Nat → List (Nat × List EOrder) → EOrder → List (Nat × Nat) →
    List (Nat × List EOrder) × EOrder × List (Nat × Nat)
  | 0, asks, o, tr => (asks, o, tr)
  | fuel + 1, asks, o, tr =>
    match asks with
    | [] => ([], o, tr)
    | (p, q) :: rest =>
      if 0 < o.qty ∧ p ≤ o.price then
        match q with
        | [] => ((p, q) :: rest, o, tr)
        | sellO :: qrest =>
          let traded := min o.qty sellO.qty
          let o2 := { o with qty := o.qty - traded }
          let sell2 := { sellO with qty := sellO.qty - traded }
          let tr2 := tr ++ [(traded, sellO.price)]
          let q2 := if 0 < sell2.qty then qrest ++ [sell2] else qrest
          let asks2 := if q2 = [] then rest else (p, q2) :: rest
          engineBuyLoop fuel asks2 o2 tr2
      else ((p, q) :: rest, o, tr)

/-- Sell branch of the engine's matchOrder, against the bids (best =
highest price first), with the same push-partial-to-the-back behaviour. -/
def engineSellLoop : Nat → List (Nat × List EOrder) → EOrder → List (Nat × Nat) →
    List (Nat × List EOrder) × EOrder × List (Nat × Nat)
  | 0, bids, o, tr => (bids, o, tr)
  | fuel + 1, bids, o, tr =>
    match bids with
    | [] => ([], o, tr)
    | (p, q) :: rest =>
      if 0 < o.qty ∧ o.price ≤ p then
        match q with
        | [] => ((p, q) :: rest, o, tr)
        | buyO :: qrest =>
          let traded := min o.qty buyO.qty
          let o2 := { o with qty := o.qty - traded }
          let buy2 := { buyO with qty := buyO.qty - traded }
          let tr2 := tr ++ [(traded, buyO.price)]
          let q2 := if 0 < buy2.qty then qrest ++ [buy2] else qrest
          let bids2 := if q2 = [] then rest else (p, q2) :: rest
          engineSellLoop fuel bids2 o2 tr2
      else ((p, q) :: rest, o, tr)

/-- matchOrder of `OrderBook-Engine/orderbook.cpp`: run the side's loop
and rest any residual at its limit price on its own side. -/
def engineMatchOrder (s : EBook) (o : EOrder) : EBook × List (Nat × Nat) :=
  match o.side with
  | Side.buy =>
    let r := engineBuyLoop (o.qty + engineTotal s.asks + 1) s.asks o []
    let s2 := { s with asks := r.1 }
    let s3 := if 0 < r.2.1.qty then { s2 with bids := enginePushBid s2.bids r.2.1 } else s2
    (s3, r.2.2)
  | Side.sell =>
    let r := engineSellLoop (o.qty + engineTotal s.bids + 1) s.bids o []
    let s2 := { s with bids := r.1 }
    let s3 := if 0 < r.2.1.qty then { s2 with asks := enginePushAsk s2.asks r.2.1 } else s2
    (s3, r.2.2)

/-- Fold a list of incoming orders through the engine matcher. -/
def engineApply (s : EBook) (os : List EOrder) : EBook :=
  os.foldl (fun st o => (engineMatchOrder st o).1) s

/-- Engine book after buys id 1 (10@50) and id 2 (5@50) rest and a sell of
4 at 50 partially fills the front bid (id 1). -/
def engineRequeueBook : EBook :=
  engineApply engineEmpty
    [ { id := 1, side := Side.buy, price := 50, qty := 10 }
    , { id := 2, side := Side.buy, price := 50, qty := 5 }
    , { id := 3, side := Side.sell, price := 50, qty := 4 } ]

end Engine

namespace HFT

/-- Result of submitting a zero-quantity buy to a fresh book. -/
def zeroQtyRes : Bool × OrderBook × List Trade :=
  addOrder (mkBook 5 48)
    { order_id := 9, price := 50, quantity := 0, side := Side.buy, timestamp := 0 }

/-- Result of modifying order id 1 of `twoBidsBook` to quantity 20 (an
increase from its resident quantity 10). -/
def modRes : Bool × OrderBook :=
  modifyOrder twoBidsBook 1 20

/-- Buy order whose price 50 lies below `base_price = 100`: its unsigned
level index wraps around and is far outside the 5-cell ladder. -/
def outOfRangeOrder : Order :=
  { order_id := 7, price := 50, quantity := 10, side := Side.buy, timestamp := 0 }

end HFT

namespace Ring

/-- Results of four consecutive pushes into a fresh ring of capacity 4. -/
def ringFour : List Bool × LockFreeQueue :=
  pushList 4 (mkQueue 4) [7, 8, 9, 10]

end Ring

open HFT Pool Ring Engine

theorem sumQty_append (ts : List Trade) (t : Trade) :
    sumQty (ts ++ [t]) = sumQty ts + t.quantity := by
  simp [sumQty]

theorem matchLoopBuy_conserve (fuel : Nat) :
    ∀ (b : OrderBook) (o : Order) (tr : List Trade),
      sumQty (matchLoopBuy fuel b o tr).2.2 +
        (matchLoopBuy fuel b o tr).2.1.quantity = sumQty tr + o.quantity := by
  induction fuel with
  | zero => intro b o tr; rfl
  | succ n ih =>
    intro b o tr
    rw [matchLoopBuy]
    dsimp only
    split
    · split
      · rfl
      · split
        · rfl
        · rename_i hcond hlen node rest horders
          rw [ih, sumQty_append]
          have hmin : min o.quantity node.quantity ≤ o.quantity :=
            Nat.min_le_left _ _
          simp [executeTrade]
          omega
    · rfl

theorem matchLoopSell_conserve (fuel : Nat) :
    ∀ (b : OrderBook) (o : Order) (tr : List Trade),
      sumQty (matchLoopSell fuel b o tr).2.2 +
        (matchLoopSell fuel b o tr).2.1.quantity = sumQty tr + o.quantity := by
  induction fuel with
  | zero => intro b o tr; rfl
  | succ n ih =>
    intro b o tr
    rw [matchLoopSell]
    dsimp only
    split
    · split
      · rfl
      · split
        · rfl
        · rename_i hcond hlen node rest horders
          rw [ih, sumQty_append]
          have hmin : min o.quantity node.quantity ≤ o.quantity :=
            Nat.min_le_left _ _
          simp [executeTrade]
          omega
    · rfl

/-- Claim C8: quantity is conserved by matching — for every book and every
submitted order of quantity `Q`, the sum of the quantities of the emitted
trades plus the residual quantity on exit from `matchOrder` equals `Q`. -/
theorem match_conserves_quantity (b : OrderBook) (o : Order) :
    sumQty (matchOrder b o).2.2 + (matchOrder b o).2.1.quantity = o.quantity := by
  unfold matchOrder
  cases o.side
  · simpa [sumQty] using matchLoopBuy_conserve (o.quantity + ladderLen b.asks + 1) b o []
  · simpa [sumQty] using matchLoopSell_conserve (o.quantity + ladderLen b.bids + 1) b o []

/-- Claim C1 (the code violates it): after asks 30@101 and 40@102 rest, a
single completed `addOrder` of a buy of 100 at 103 leaves the book
crossed — both sides are non-empty yet the cached best bid (103) is not
strictly below the cached best ask (102).  The matching loop breaks as
soon as the 101 level empties (its cached `best_ask_` is stale) and the
crossing residual is booked. -/
theorem hft_book_crossed_after_walk :
    crossedBook.best_bid = 103 ∧ crossedBook.best_ask = 102 ∧
    (crossedBook.bids.getD 3 emptyLevel).order_count = 1 ∧
    (crossedBook.asks.getD 2 emptyLevel).order_count = 1 ∧
    ¬ crossedBook.best_bid < crossedBook.best_ask := by
  decide

/-- Claim C2 (the code violates it): against resting asks 30@101, 40@102
and 50@103, a buy of 100 at 103 produces only the single trade 30@101 —
once the 101 level empties, the loop breaks instead of walking to the 102
and 103 levels — and the residual 70 is booked as a bid at 103 while the
asks 40@102 and 50@103 still rest (the claim predicts trades 30@101,
40@102, 30@103 and a remaining ask of 20@103). -/
theorem hft_match_stops_after_first_level :
    walkRes.2.2.map (fun t => (t.quantity, t.price)) = [(30, 101)] ∧
    (walkRes.2.1.asks.getD 2 emptyLevel).total_quantity = 40 ∧
    (walkRes.2.1.asks.getD 3 emptyLevel).total_quantity = 50 ∧
    (walkRes.2.1.bids.getD 3 emptyLevel).orders.map (fun x => (x.order_id, x.quantity))
      = [(24, 70)] := by
  decide

/-- Claim C9 (counterexample): a zero-quantity buy submitted to a fresh
book is not rejected: `addOrder` reports success (`true` — the interface
has no rejection value and no reason code), emits no trade, and returns
the book unchanged. -/
theorem zero_quantity_accepted :
    zeroQtyRes.1 = true ∧ zeroQtyRes.2.1 = mkBook 5 48 ∧ zeroQtyRes.2.2 = [] := by
  decide

/-- Claim C5 (counterexample): modifying resident order id 1 (quantity
10, price 50, the head of its level, with id 2 queued behind it) to the
LARGER quantity 20 does not cancel-and-replace: the call succeeds, the
node keeps its position at the head of its level and its id, its quantity
becomes 20 in place, and id 1 is still in the directory — no fresh order
id is issued. -/
theorem modify_quantity_increase_stays_in_place :
    modRes.1 = true ∧
    (modRes.2.bids.getD 2 emptyLevel).orders.map (fun x => (x.order_id, x.quantity))
      = [(1, 20), (2, 5)] ∧
    1 ∈ modRes.2.order_map := by
  decide

/-- Claim C6 (counterexample): in `OrderBook-Engine/orderbook.cpp`, after
buys id 1 (10@50) and id 2 (5@50) rest in arrival order, a sell of 4@50
partially fills the head (id 1) — and the engine re-enqueues the
partially filled order at the BACK of its price level: the queue at 50
becomes id 2 (qty 5) then id 1 (qty 6), so the head is the younger order
and arrival order no longer increases from front to back. -/
theorem engine_partial_fill_loses_priority :
    engineRequeueBook.bids =
      [(50, [ { id := 2, side := Side.buy, price := 50, qty := 5 }
            , { id := 1, side := Side.buy, price := 50, qty := 6 } ])] ∧
    strictlyIncreasing (((engineRequeueBook.bids.getD 0 (0, [])).2).map (fun x => x.id))
      = false := by
  decide

/-- Claim C3 (counterexample): a pool of block size 4 whose four cells
are all in use has an empty free list; the next `allocate` does NOT fail
— it heap-allocates a second block (`blocks` goes from 1 to 2) and
returns the fresh cell 4. -/
theorem pool_exhaustion_expands_heap :
    drainedPool.free_list = [] ∧ drainedPool.blocks = 1 ∧
    (allocate 4 drainedPool).1 = 4 ∧ (allocate 4 drainedPool).2.blocks = 2 := by
  decide

/-- Claim C4 (counterexample): for capacity `C = 4`, four consecutive
pushes into a fresh ring do NOT all succeed — the fourth returns full
(the ring stores at most `C - 1 = 3` elements). -/
theorem ring_fourth_push_fails_at_capacity_four :
    ringFour.1 = [true, true, true, false] := by
  decide

/-- Claim C3 (amended): the pool's capacity is not fixed at construction —
when the free list is empty, `allocate` calls `expandPool`, heap-allocating
a fresh block of `blockSize` cells (the block count increments), and then
succeeds, returning the first fresh cell; allocation never fails and the
interface has no `PoolExhausted` value for a caller to translate into a
rejection. -/
theorem pool_allocate_never_fails (blockSize : Nat) (p : MemoryPool)
    (hbs : 0 < blockSize) (hempty : p.free_list = []) :
    (allocate blockSize p).1 = p.next_cell ∧
    (allocate blockSize p).2.blocks = p.blocks + 1 ∧
    (allocate blockSize p).2.next_cell = p.next_cell + blockSize := by
  obtain ⟨k, rfl⟩ : ∃ k, blockSize = k + 1 := ⟨blockSize - 1, by omega⟩
  simp [allocate, expandPool, hempty, List.range_succ_eq_map]

/-- Claim C3 witness: the amended statement instantiated at the concrete
drained pool of block size 4 (all four cells in use). -/
theorem pool_allocate_never_fails_witness :
    (allocate 4 drainedPool).1 = drainedPool.next_cell ∧
    (allocate 4 drainedPool).2.blocks = drainedPool.blocks + 1 ∧
    (allocate 4 drainedPool).2.next_cell = drainedPool.next_cell + 4 :=
  pool_allocate_never_fails 4 drainedPool (by decide) (by decide)

theorem pushList_zero_head (k : Nat) :
    ∀ (xs : List Nat) (q : LockFreeQueue), q.head = 0 → q.tail + xs.length < 2 ^ k →
      (pushList (2 ^ k) q xs).1 = List.replicate xs.length true ∧
      (pushList (2 ^ k) q xs).2.head = 0 ∧
      (pushList (2 ^ k) q xs).2.tail = q.tail + xs.length := by
  intro xs
  induction xs with
  | nil => intro q h0 hlt; simp [pushList, h0]
  | cons x xs ih =>
    intro q h0 hlt
    have hlen : q.tail + (xs.length + 1) < 2 ^ k := by simpa using hlt
    have hand : ((q.tail + 1) &&& (2 ^ k - 1)) = q.tail + 1 := by
      rw [Nat.and_pow_two_sub_one_eq_mod]
      exact Nat.mod_eq_of_lt (by omega)
    have hne : ¬ (q.tail + 1 = q.head) := by omega
    obtain ⟨h1, h2, h3⟩ :=
      ih { q with buffer := q.buffer.set q.tail x, tail := q.tail + 1 } h0 (by simp; omega)
    refine ⟨?_, ?_, ?_⟩
    · simp [pushList, push, hand, hne, h1, List.replicate_succ]
    · simpa [pushList, push, hand, hne] using h2
    · rw [show (pushList (2 ^ k) q (x :: xs)).2
            = (pushList (2 ^ k) { q with buffer := q.buffer.set q.tail x, tail := q.tail + 1 } xs).2 by
          simp [pushList, push, hand, hne]]
      rw [h3]
      show q.tail + 1 + xs.length = q.tail + (xs.length + 1)
      omega

/-- Claim C4 (amended): an SPSC ring of power-of-two capacity `C = 2 ^ k`
stores at most `C - 1` elements — the fullness test `next_tail == head`
sacrifices one slot.  Starting from an empty ring with no intervening
pops, the first `C - 1` consecutive `push` calls all succeed and the
`C`-th returns full. -/
theorem ring_accepts_capacity_minus_one (k : Nat) (hk : 0 < k) :
    (pushList (2 ^ k) (mkQueue (2 ^ k)) (List.replicate (2 ^ k - 1) 0)).1
      = List.replicate (2 ^ k - 1) true ∧
    (push (2 ^ k) (pushList (2 ^ k) (mkQueue (2 ^ k)) (List.replicate (2 ^ k - 1) 0)).2 0).1
      = false := by
  have hpos : 0 < 2 ^ k := Nat.two_pow_pos k
  obtain ⟨h1, h2, h3⟩ :=
    pushList_zero_head k (List.replicate (2 ^ k - 1) 0) (mkQueue (2 ^ k)) rfl
      (by simp [mkQueue])
  refine ⟨by simpa using h1, ?_⟩
  have htail : (pushList (2 ^ k) (mkQueue (2 ^ k)) (List.replicate (2 ^ k - 1) 0)).2.tail
      = 2 ^ k - 1 := by simpa [mkQueue] using h3
  have hand : (2 ^ k - 1 + 1) &&& (2 ^ k - 1) = 0 := by
    rw [Nat.sub_add_cancel (by omega), Nat.and_pow_two_sub_one_eq_mod, Nat.mod_self]
  simp [push, htail, h2, hand]

/-- Claim C4 witness: the amended statement instantiated at `k = 2`
(capacity 4): three pushes succeed, the fourth returns full. -/
theorem ring_accepts_capacity_minus_one_witness :
    (pushList (2 ^ 2) (mkQueue (2 ^ 2)) (List.replicate (2 ^ 2 - 1) 0)).1
      = List.replicate (2 ^ 2 - 1) true ∧
    (push (2 ^ 2) (pushList (2 ^ 2) (mkQueue (2 ^ 2)) (List.replicate (2 ^ 2 - 1) 0)).2 0).1
      = false :=
  ring_accepts_capacity_minus_one 2 (by decide)

/-- Claim C9 (amended): a zero-quantity submission is not rejected — there
is no rejection channel — and performs no booking: `addOrder` returns
`true`, emits no trades, books no node and enters nothing into the
directory; the only mutation is recomputing the cached best prices from
the untouched ladders, which is idempotent (and the identity whenever the
cache is already consistent with the ladders). -/
theorem zero_quantity_no_booking (b : OrderBook) (o : Order)
    (h : o.quantity = 0) :
    addOrder b o = (true, updateBestPrices b, []) ∧
    updateBestPrices (updateBestPrices b) = updateBestPrices b := by
  refine ⟨?_, rfl⟩
  cases hs : o.side <;>
    simp [addOrder, matchOrder, matchLoopBuy, matchLoopSell, h, hs]

/-- Claim C9 witness: the amended statement instantiated at a fresh book
and a concrete zero-quantity buy. -/
theorem zero_quantity_no_booking_witness :
    addOrder (mkBook 5 48)
        { order_id := 9, price := 50, quantity := 0, side := Side.buy, timestamp := 0 }
      = (true, updateBestPrices (mkBook 5 48), []) ∧
    updateBestPrices (updateBestPrices (mkBook 5 48)) = updateBestPrices (mkBook 5 48) :=
  zero_quantity_no_booking (mkBook 5 48) _ rfl

theorem setQty_ids (orders : List Order) (oid newq : Nat) :
    (setQty orders oid newq).map (fun x => x.order_id)
      = orders.map (fun x => x.order_id) := by
  simp only [setQty, List.map_map]
  exact List.map_congr_left (fun a _ => by
    simp only [Function.comp_apply]
    split <;> rfl)

theorem modifyLadder_ids (oid newq : Nat) :
    ∀ (ls ls2 : List PriceLevel), modifyLadder ls oid newq = some ls2 →
      ls2.map levelIds = ls.map levelIds := by
  intro ls
  induction ls with
  | nil => intro ls2 h; simp [modifyLadder] at h
  | cons l rest ih =>
    intro ls2 h
    rw [modifyLadder] at h
    cases hf : findQty l.orders oid with
    | some q =>
      rw [hf] at h
      obtain rfl := (Option.some_inj.mp h).symm
      simp [levelIds, setQty_ids]
    | none =>
      rw [hf] at h
      cases hr : modifyLadder rest oid newq with
      | none => rw [hr] at h; simp at h
      | some rs =>
        rw [hr] at h
        obtain rfl := (Option.some_inj.mp h).symm
        simp [ih rs hr]

/-- Claim C5 (amended): `modifyOrder(order_id, new_quantity)` always
updates the resident node in place, whatever the new quantity — increases
included; the function has no price argument and no cancel-and-replace
path.  The per-level id sequences of both ladders, the directory and the
cached best prices are all unchanged, so the node keeps its position
(time priority) and its id, and no fresh order id is ever issued; when
the id is not resident the call returns `false` with the book unchanged. -/
theorem modify_always_in_place (b : OrderBook) (oid newq : Nat) :
    (modifyOrder b oid newq).2.bids.map levelIds = b.bids.map levelIds ∧
    (modifyOrder b oid newq).2.asks.map levelIds = b.asks.map levelIds ∧
    (modifyOrder b oid newq).2.order_map = b.order_map ∧
    (modifyOrder b oid newq).2.best_bid = b.best_bid ∧
    (modifyOrder b oid newq).2.best_ask = b.best_ask := by
  unfold modifyOrder
  cases hb : modifyLadder b.bids oid newq with
  | some bids2 => simp [modifyLadder_ids oid newq b.bids bids2 hb]
  | none =>
    cases ha : modifyLadder b.asks oid newq with
    | some asks2 => simp [modifyLadder_ids oid newq b.asks asks2 ha]
    | none => simp

theorem matchLoopBuy_frame (fuel : Nat) :
    ∀ (b : OrderBook) (o : Order) (tr : List Trade),
      (matchLoopBuy fuel b o tr).1.bids = b.bids ∧
      (matchLoopBuy fuel b o tr).1.asks.length = b.asks.length ∧
      (matchLoopBuy fuel b o tr).1.base_price = b.base_price ∧
      (∀ i ∈ (matchLoopBuy fuel b o tr).1.order_map, i ∈ b.order_map) ∧
      (matchLoopBuy fuel b o tr).2.1.price = o.price ∧
      (matchLoopBuy fuel b o tr).2.1.side = o.side ∧
      (matchLoopBuy fuel b o tr).2.1.order_id = o.order_id := by
  induction fuel with
  | zero => intro b o tr; exact ⟨rfl, rfl, rfl, fun i h => h, rfl, rfl, rfl⟩
  | succ n ih =>
    intro b o tr
    rw [matchLoopBuy]
    dsimp only
    split
    · split
      · exact ⟨rfl, rfl, rfl, fun i h => h, rfl, rfl, rfl⟩
      · split
        · exact ⟨rfl, rfl, rfl, fun i h => h, rfl, rfl, rfl⟩
        · split
          · obtain ⟨h1, h2, h3, h4, h5, h6, h7⟩ := ih _ _ _
            refine ⟨h1, ?_, h3, ?_, h5, h6, h7⟩
            · rw [h2]; simp
            · intro i hi
              exact List.mem_of_mem_filter (h4 i hi)
          · obtain ⟨h1, h2, h3, h4, h5, h6, h7⟩ := ih _ _ _
            refine ⟨h1, ?_, h3, h4, h5, h6, h7⟩
            rw [h2]; simp
    · exact ⟨rfl, rfl, rfl, fun i h => h, rfl, rfl, rfl⟩

theorem matchLoopSell_frame (fuel : Nat) :
    ∀ (b : OrderBook) (o : Order) (tr : List Trade),
      (matchLoopSell fuel b o tr).1.asks = b.asks ∧
      (matchLoopSell fuel b o tr).1.bids.length = b.bids.length ∧
      (matchLoopSell fuel b o tr).1.base_price = b.base_price ∧
      (∀ i ∈ (matchLoopSell fuel b o tr).1.order_map, i ∈ b.order_map) ∧
      (matchLoopSell fuel b o tr).2.1.price = o.price ∧
      (matchLoopSell fuel b o tr).2.1.side = o.side ∧
      (matchLoopSell fuel b o tr).2.1.order_id = o.order_id := by
  induction fuel with
  | zero => intro b o tr; exact ⟨rfl, rfl, rfl, fun i h => h, rfl, rfl, rfl⟩
  | succ n ih =>
    intro b o tr
    rw [matchLoopSell]
    dsimp only
    split
    · split
      · exact ⟨rfl, rfl, rfl, fun i h => h, rfl, rfl, rfl⟩
      · split
        · exact ⟨rfl, rfl, rfl, fun i h => h, rfl, rfl, rfl⟩
        · split
          · obtain ⟨h1, h2, h3, h4, h5, h6, h7⟩ := ih _ _ _
            refine ⟨h1, ?_, h3, ?_, h5, h6, h7⟩
            · rw [h2]; simp
            · intro i hi
              exact List.mem_of_mem_filter (h4 i hi)
          · obtain ⟨h1, h2, h3, h4, h5, h6, h7⟩ := ih _ _ _
            refine ⟨h1, ?_, h3, h4, h5, h6, h7⟩
            rw [h2]; simp
    · exact ⟨rfl, rfl, rfl, fun i h => h, rfl, rfl, rfl⟩

theorem matchOrder_frame (b : OrderBook) (o : Order) :
    (matchOrder b o).1.bids.length = b.bids.length ∧
    (matchOrder b o).1.asks.length = b.asks.length ∧
    (matchOrder b o).1.base_price = b.base_price ∧
    (∀ i ∈ (matchOrder b o).1.order_map, i ∈ b.order_map) ∧
    (matchOrder b o).2.1.price = o.price ∧
    (matchOrder b o).2.1.side = o.side ∧
    (matchOrder b o).2.1.order_id = o.order_id := by
  unfold matchOrder
  cases hs : o.side <;> dsimp only
  · obtain ⟨h1, h2, h3, h4, h5, h6, h7⟩ :=
      matchLoopBuy_frame (o.quantity + ladderLen b.asks + 1) b o []
    exact ⟨congrArg List.length h1, h2, h3, h4, h5, h6.trans hs, h7⟩
  · obtain ⟨h1, h2, h3, h4, h5, h6, h7⟩ :=
      matchLoopSell_frame (o.quantity + ladderLen b.bids + 1) b o []
    exact ⟨h2, congrArg List.length h1, h3, h4, h5, h6.trans hs, h7⟩

/-- Claim C10: `OrderBook::addOrder` returns `true` for every input — the
Boolean result never signals rejection — and when the order's price falls
outside the ladder's representable index range (`level_idx` computed from
`price - base_price` is at or beyond the ladder length, e.g. any price
below `base_price` after unsigned wraparound), the residual is silently
discarded by `addToBook`: the resulting book is exactly the post-matching
book, and in particular the order's id is never entered into the
directory (the directory can only shrink across the call). -/
theorem addOrder_true_and_silent_discard (b : OrderBook) (o : Order) :
    (addOrder b o).1 = true ∧
    (b.bids.length ≤ levelIdx b.base_price o.price →
     b.asks.length ≤ levelIdx b.base_price o.price →
     (addOrder b o).2.1 = (matchOrder b o).1 ∧
     ∀ i ∈ (addOrder b o).2.1.order_map, i ∈ b.order_map) := by
  obtain ⟨h1, h2, h3, h4, h5, h6, h7⟩ := matchOrder_frame b o
  refine ⟨rfl, fun hbid hask => ?_⟩
  have hbook : (addOrder b o).2.1 = (matchOrder b o).1 := by
    unfold addOrder
    dsimp only
    split
    · unfold addToBook
      dsimp only
      rw [h3, h5]
      cases hside : (matchOrder b o).2.1.side <;> dsimp only
      · rw [if_pos (by rw [h1]; exact hbid)]
      · rw [if_pos (by rw [h2]; exact hask)]
    · rfl
  exact ⟨hbook, fun i hi => h4 i (hbook ▸ hi)⟩

/-- Claim C10 witness: the theorem applied to a fresh 5-cell book based
at 100 and a buy at price 50 — below the base price, so the wrapped index
is out of range: the call returns `true`, the residual is silently
dropped and nothing enters the directory. -/
theorem addOrder_true_and_silent_discard_witness :
    (addOrder (mkBook 5 100) outOfRangeOrder).1 = true ∧
    ((addOrder (mkBook 5 100) outOfRangeOrder).2.1
        = (matchOrder (mkBook 5 100) outOfRangeOrder).1 ∧
     ∀ i ∈ (addOrder (mkBook 5 100) outOfRangeOrder).2.1.order_map,
       i ∈ (mkBook 5 100).order_map) :=
  ⟨(addOrder_true_and_silent_discard (mkBook 5 100) outOfRangeOrder).1,
   (addOrder_true_and_silent_discard (mkBook 5 100) outOfRangeOrder).2
     (by decide) (by decide)⟩

theorem mem_allOrders {ls : List PriceLevel} {p : Order} :
    p ∈ allOrders ls ↔ ∃ l ∈ ls, p ∈ l.orders := by
  simp only [allOrders, List.mem_flatten, List.mem_map]
  constructor
  · rintro ⟨a, ⟨l, hl, rfl⟩, hp⟩
    exact ⟨l, hl, hp⟩
  · rintro ⟨l, hl, hp⟩
    exact ⟨l.orders, ⟨l, hl, rfl⟩, hp⟩

theorem getD_mem_of_lt {ls : List PriceLevel} {i : Nat} (h : i < ls.length) :
    ls.getD i emptyLevel ∈ ls := by
  have he : ls.getD i emptyLevel = ls[i] := by
    simp [List.getD_eq_getElem?_getD, List.getElem?_eq_getElem h]
  rw [he]
  exact List.getElem_mem h

theorem matchLoopBuy_price (P : Nat → Prop) (fuel : Nat) :
    ∀ (b : OrderBook) (o : Order) (tr : List Trade),
      (∀ p ∈ allOrders b.asks, P p.price) → (∀ t ∈ tr, P t.price) →
      ∀ t ∈ (matchLoopBuy fuel b o tr).2.2, P t.price := by
  induction fuel with
  | zero => intro b o tr hcov htr; exact htr
  | succ n ih =>
    intro b o tr hcov htr
    rw [matchLoopBuy]
    dsimp only
    split
    · split
      · exact htr
      · split
        · exact htr
        · rename_i hcond hlen xeq node rest horders
          have hlt : levelIdx b.base_price b.best_ask < b.asks.length :=
            Nat.lt_of_not_le hlen
          have hmemlevel :
              b.asks.getD (levelIdx b.base_price b.best_ask) emptyLevel ∈ b.asks :=
            getD_mem_of_lt hlt
          have hnodemem : node ∈ allOrders b.asks :=
            mem_allOrders.mpr ⟨_, hmemlevel, by rw [horders]; exact List.mem_cons_self _ _⟩
          have hrestmem : ∀ p ∈ rest, p ∈ allOrders b.asks := by
            intro p hp
            exact mem_allOrders.mpr
              ⟨_, hmemlevel, by rw [horders]; exact List.mem_cons_of_mem _ hp⟩
          have htr2 : ∀ t ∈ tr ++ [executeTrade node o (min o.quantity node.quantity)],
              P t.price := by
            intro t ht
            rcases List.mem_append.mp ht with h | h
            · exact htr t h
            · rw [List.mem_singleton.mp h]
              exact hcov node hnodemem
          split
          · apply ih _ _ _ _ htr2
            intro p hp
            rcases mem_allOrders.mp hp with ⟨l, hl, hpl⟩
            rcases List.mem_or_eq_of_mem_set hl with hml | rfl
            · exact hcov p (mem_allOrders.mpr ⟨l, hml, hpl⟩)
            · have : p ∈ rest := by
                have horders2 : (removeHeadLevel
                    { b.asks.getD (levelIdx b.base_price b.best_ask) emptyLevel with
                      total_quantity :=
                        (b.asks.getD (levelIdx b.base_price b.best_ask) emptyLevel).total_quantity
                          - min o.quantity node.quantity
                      orders := { node with
                        quantity := node.quantity - min o.quantity node.quantity } :: rest }).orders
                    = rest := by
                  rw [removeHeadLevel]
                  split <;> rfl
                rwa [horders2] at hpl
              exact hcov p (hrestmem p this)
          · apply ih _ _ _ _ htr2
            intro p hp
            rcases mem_allOrders.mp hp with ⟨l, hl, hpl⟩
            rcases List.mem_or_eq_of_mem_set hl with hml | rfl
            · exact hcov p (mem_allOrders.mpr ⟨l, hml, hpl⟩)
            · rcases List.mem_cons.mp hpl with rfl | hpr
              · exact hcov node hnodemem
              · exact hcov p (hrestmem p hpr)
    · exact htr

theorem matchLoopSell_price (P : Nat → Prop) (fuel : Nat) :
    ∀ (b : OrderBook) (o : Order) (tr : List Trade),
      (∀ p ∈ allOrders b.bids, P p.price) → (∀ t ∈ tr, P t.price) →
      ∀ t ∈ (matchLoopSell fuel b o tr).2.2, P t.price := by
  induction fuel with
  | zero => intro b o tr hcov htr; exact htr
  | succ n ih =>
    intro b o tr hcov htr
    rw [matchLoopSell]
    dsimp only
    split
    · split
      · exact htr
      · split
        · exact htr
        · rename_i hcond hlen xeq node rest horders
          have hlt : levelIdx b.base_price b.best_bid < b.bids.length :=
            Nat.lt_of_not_le hlen
          have hmemlevel :
              b.bids.getD (levelIdx b.base_price b.best_bid) emptyLevel ∈ b.bids :=
            getD_mem_of_lt hlt
          have hnodemem : node ∈ allOrders b.bids :=
            mem_allOrders.mpr ⟨_, hmemlevel, by rw [horders]; exact List.mem_cons_self _ _⟩
          have hrestmem : ∀ p ∈ rest, p ∈ allOrders b.bids := by
            intro p hp
            exact mem_allOrders.mpr
              ⟨_, hmemlevel, by rw [horders]; exact List.mem_cons_of_mem _ hp⟩
          have htr2 : ∀ t ∈ tr ++ [executeTrade node o (min o.quantity node.quantity)],
              P t.price := by
            intro t ht
            rcases List.mem_append.mp ht with h | h
            · exact htr t h
            · rw [List.mem_singleton.mp h]
              exact hcov node hnodemem
          split
          · apply ih _ _ _ _ htr2
            intro p hp
            rcases mem_allOrders.mp hp with ⟨l, hl, hpl⟩
            rcases List.mem_or_eq_of_mem_set hl with hml | rfl
            · exact hcov p (mem_allOrders.mpr ⟨l, hml, hpl⟩)
            · have : p ∈ rest := by
                have horders2 : (removeHeadLevel
                    { b.bids.getD (levelIdx b.base_price b.best_bid) emptyLevel with
                      total_quantity :=
                        (b.bids.getD (levelIdx b.base_price b.best_bid) emptyLevel).total_quantity
                          - min o.quantity node.quantity
                      orders := { node with
                        quantity := node.quantity - min o.quantity node.quantity } :: rest }).orders
                    = rest := by
                  rw [removeHeadLevel]
                  split <;> rfl
                rwa [horders2] at hpl
              exact hcov p (hrestmem p this)
          · apply ih _ _ _ _ htr2
            intro p hp
            rcases mem_allOrders.mp hp with ⟨l, hl, hpl⟩
            rcases List.mem_or_eq_of_mem_set hl with hml | rfl
            · exact hcov p (mem_allOrders.mpr ⟨l, hml, hpl⟩)
            · rcases List.mem_cons.mp hpl with rfl | hpr
              · exact hcov node hnodemem
              · exact hcov p (hrestmem p hpr)
    · exact htr

/-- Claim C7: every trade emitted by matching prices at a passive
(resting) order of the opposite side — its price field equals the price
of some order resident in the book before the match, never an invented
price (and in particular, as the witness shows for a sell at 49 hitting
a resting bid at 50, not the aggressor's limit price). -/
theorem trade_price_is_passive_price (b : OrderBook) (o : Order) (t : Trade)
    (ht : t ∈ (matchOrder b o).2.2) :
    ∃ p ∈ passiveOrders b o.side, t.price = p.price := by
  have hmain : ∀ s ∈ (matchOrder b o).2.2,
      ∃ p ∈ passiveOrders b o.side, s.price = p.price := by
    unfold matchOrder
    cases hs : o.side <;> dsimp only
    · exact matchLoopBuy_price
        (fun x => ∃ p ∈ passiveOrders b Side.buy, x = p.price)
        (o.quantity + ladderLen b.asks + 1) b o []
        (fun p hp => ⟨p, hp, rfl⟩) (fun t ht => absurd ht (List.not_mem_nil t))
    · exact matchLoopSell_price
        (fun x => ∃ p ∈ passiveOrders b Side.sell, x = p.price)
        (o.quantity + ladderLen b.bids + 1) b o []
        (fun p hp => ⟨p, hp, rfl⟩) (fun t ht => absurd ht (List.not_mem_nil t))
  exact hmain t ht

/-- Claim C7 witness: a sell of 30 at 49 hitting the resting bid of 100
at 50 produces the trade priced 50 — the passive order's price, not the
aggressor's 49. -/
theorem trade_price_is_passive_price_witness :
    ∃ p ∈ passiveOrders oneBidBook Side.sell,
      ({ buy_order_id := 1, sell_order_id := 2, price := 50, quantity := 30,
         timestamp := 0 } : Trade).price = p.price :=
  trade_price_is_passive_price oneBidBook
    { order_id := 2, price := 49, quantity := 30, side := Side.sell, timestamp := 0 }
    { buy_order_id := 1, sell_order_id := 2, price := 50, quantity := 30, timestamp := 0 }
    (by decide)

theorem removeHeadLevel_orders (l : PriceLevel) :
    (removeHeadLevel l).orders = l.orders.tail := by
  rw [removeHeadLevel]
  split <;> rfl

theorem strictlyIncreasing_tail {l : List Nat} (h : strictlyIncreasing l = true) :
    strictlyIncreasing l.tail = true := by
  match l with
  | [] => rfl
  | [a] => rfl
  | a :: b :: rest =>
    simp only [strictlyIncreasing, Bool.and_eq_true, decide_eq_true_eq] at h
    exact h.2

theorem strictlyIncreasing_append_one (a : Nat) :
    ∀ (l : List Nat), strictlyIncreasing l = true → (∀ x ∈ l, x < a) →
      strictlyIncreasing (l ++ [a]) = true := by
  intro l
  induction l with
  | nil => intro _ _; rfl
  | cons x l2 ih =>
    intro h hx
    cases l2 with
    | nil =>
      have hxa : x < a := hx x (by simp)
      simp [strictlyIncreasing, hxa]
    | cons y l3 =>
      simp only [strictlyIncreasing, Bool.and_eq_true, decide_eq_true_eq] at h
      simp only [List.cons_append, strictlyIncreasing, Bool.and_eq_true, decide_eq_true_eq]
      refine ⟨h.1, ?_⟩
      have := ih h.2 (fun z hz => hx z (List.mem_cons_of_mem x hz))
      simpa using this

theorem mem_ladderIds {ls : List PriceLevel} {i : Nat} :
    i ∈ ladderIds ls ↔ ∃ l ∈ ls, i ∈ levelIds l := by
  simp only [ladderIds, List.mem_flatten, List.mem_map]
  constructor
  · rintro ⟨a, ⟨l, hl, rfl⟩, hi⟩
    exact ⟨l, hl, hi⟩
  · rintro ⟨l, hl, hi⟩
    exact ⟨levelIds l, ⟨l, hl, rfl⟩, hi⟩

theorem levelSorted_congr_ids {L newL : PriceLevel}
    (h : levelIds newL = levelIds L) (hs : levelSorted L) :
    levelSorted newL ∧ ∀ i ∈ levelIds newL, i ∈ levelIds L := by
  unfold levelSorted at *
  rw [h]
  exact ⟨hs, fun i hi => h ▸ hi⟩

theorem levelSorted_drop_head {L newL : PriceLevel} {node : Order}
    {rest : List Order} (hL : L.orders = node :: rest) (hnew : newL.orders = rest)
    (hs : levelSorted L) :
    levelSorted newL ∧ ∀ i ∈ levelIds newL, i ∈ levelIds L := by
  unfold levelSorted levelIds at *
  rw [hL] at hs
  rw [hnew, hL]
  constructor
  · simpa using strictlyIncreasing_tail hs
  · intro i hi
    simp only [List.map_cons, List.mem_cons]
    exact Or.inr hi

theorem matchLoopBuy_fifo (S : List Nat) (fuel : Nat) :
    ∀ (b : OrderBook) (o : Order) (tr : List Trade),
      ladderSorted b.asks → (∀ i ∈ ladderIds b.asks, i ∈ S) →
      ladderSorted (matchLoopBuy fuel b o tr).1.asks ∧
      ∀ i ∈ ladderIds (matchLoopBuy fuel b o tr).1.asks, i ∈ S := by
  induction fuel with
  | zero => intro b o tr hs hsub; exact ⟨hs, hsub⟩
  | succ n ih =>
    intro b o tr hs hsub
    rw [matchLoopBuy]
    dsimp only
    split
    · split
      · exact ⟨hs, hsub⟩
      · split
        · exact ⟨hs, hsub⟩
        · rename_i hcond hlen xeq node rest horders
          have hlt : levelIdx b.base_price b.best_ask < b.asks.length :=
            Nat.lt_of_not_le hlen
          have hmemlevel := getD_mem_of_lt hlt
          have hlevel := hs _ hmemlevel
          split
          · apply ih
            · intro l hl
              rcases List.mem_or_eq_of_mem_set hl with h | rfl
              · exact hs l h
              · exact (levelSorted_drop_head horders
                  (by simp [removeHeadLevel_orders]) hlevel).1
            · intro i hi
              rcases mem_ladderIds.mp hi with ⟨l, hl, hil⟩
              rcases List.mem_or_eq_of_mem_set hl with h | rfl
              · exact hsub i (mem_ladderIds.mpr ⟨l, h, hil⟩)
              · exact hsub i (mem_ladderIds.mpr ⟨_, hmemlevel,
                  (levelSorted_drop_head horders
                    (by simp [removeHeadLevel_orders]) hlevel).2 i hil⟩)
          · apply ih
            · intro l hl
              rcases List.mem_or_eq_of_mem_set hl with h | rfl
              · exact hs l h
              · exact (levelSorted_congr_ids (by unfold levelIds; rw [horders]; exact rfl) hlevel).1
            · intro i hi
              rcases mem_ladderIds.mp hi with ⟨l, hl, hil⟩
              rcases List.mem_or_eq_of_mem_set hl with h | rfl
              · exact hsub i (mem_ladderIds.mpr ⟨l, h, hil⟩)
              · exact hsub i (mem_ladderIds.mpr ⟨_, hmemlevel,
                  (levelSorted_congr_ids (by unfold levelIds; rw [horders]; exact rfl) hlevel).2 i hil⟩)
    · exact ⟨hs, hsub⟩

theorem matchLoopSell_fifo (S : List Nat) (fuel : Nat) :
    ∀ (b : OrderBook) (o : Order) (tr : List Trade),
      ladderSorted b.bids → (∀ i ∈ ladderIds b.bids, i ∈ S) →
      ladderSorted (matchLoopSell fuel b o tr).1.bids ∧
      ∀ i ∈ ladderIds (matchLoopSell fuel b o tr).1.bids, i ∈ S := by
  induction fuel with
  | zero => intro b o tr hs hsub; exact ⟨hs, hsub⟩
  | succ n ih =>
    intro b o tr hs hsub
    rw [matchLoopSell]
    dsimp only
    split
    · split
      · exact ⟨hs, hsub⟩
      · split
        · exact ⟨hs, hsub⟩
        · rename_i hcond hlen xeq node rest horders
          have hlt : levelIdx b.base_price b.best_bid < b.bids.length :=
            Nat.lt_of_not_le hlen
          have hmemlevel := getD_mem_of_lt hlt
          have hlevel := hs _ hmemlevel
          split
          · apply ih
            · intro l hl
              rcases List.mem_or_eq_of_mem_set hl with h | rfl
              · exact hs l h
              · exact (levelSorted_drop_head horders
                  (by simp [removeHeadLevel_orders]) hlevel).1
            · intro i hi
              rcases mem_ladderIds.mp hi with ⟨l, hl, hil⟩
              rcases List.mem_or_eq_of_mem_set hl with h | rfl
              · exact hsub i (mem_ladderIds.mpr ⟨l, h, hil⟩)
              · exact hsub i (mem_ladderIds.mpr ⟨_, hmemlevel,
                  (levelSorted_drop_head horders
                    (by simp [removeHeadLevel_orders]) hlevel).2 i hil⟩)
          · apply ih
            · intro l hl
              rcases List.mem_or_eq_of_mem_set hl with h | rfl
              · exact hs l h
              · exact (levelSorted_congr_ids (by unfold levelIds; rw [horders]; exact rfl) hlevel).1
            · intro i hi
              rcases mem_ladderIds.mp hi with ⟨l, hl, hil⟩
              rcases List.mem_or_eq_of_mem_set hl with h | rfl
              · exact hsub i (mem_ladderIds.mpr ⟨l, h, hil⟩)
              · exact hsub i (mem_ladderIds.mpr ⟨_, hmemlevel,
                  (levelSorted_congr_ids (by unfold levelIds; rw [horders]; exact rfl) hlevel).2 i hil⟩)
    · exact ⟨hs, hsub⟩

theorem matchOrder_fifo (b : OrderBook) (o : Order) (hs : bookSorted b) :
    bookSorted (matchOrder b o).1 ∧ ∀ i ∈ bookIds (matchOrder b o).1, i ∈ bookIds b := by
  unfold matchOrder
  cases hside : o.side <;> dsimp only
  · obtain ⟨hA, hAsub⟩ :=
      matchLoopBuy_fifo (bookIds b) (o.quantity + ladderLen b.asks + 1) b o []
        hs.2 (fun i hi => List.mem_append.mpr (Or.inr hi))
    obtain ⟨hbids, _, _, _, _, _, _⟩ :=
      matchLoopBuy_frame (o.quantity + ladderLen b.asks + 1) b o []
    refine ⟨⟨hbids ▸ hs.1, hA⟩, ?_⟩
    intro i hi
    unfold bookIds at hi
    rcases List.mem_append.mp hi with h | h
    · refine List.mem_append.mpr (Or.inl ?_)
      have h2 : i ∈ ladderIds (matchLoopBuy (o.quantity + ladderLen b.asks + 1) b o []).1.bids := h
      rw [hbids] at h2
      exact h2
    · exact hAsub i h
  · obtain ⟨hB, hBsub⟩ :=
      matchLoopSell_fifo (bookIds b) (o.quantity + ladderLen b.bids + 1) b o []
        hs.1 (fun i hi => List.mem_append.mpr (Or.inl hi))
    obtain ⟨hasks, _, _, _, _, _, _⟩ :=
      matchLoopSell_frame (o.quantity + ladderLen b.bids + 1) b o []
    refine ⟨⟨hB, hasks ▸ hs.2⟩, ?_⟩
    intro i hi
    unfold bookIds at hi
    rcases List.mem_append.mp hi with h | h
    · exact hBsub i h
    · refine List.mem_append.mpr (Or.inr ?_)
      have h2 : i ∈ ladderIds (matchLoopSell (o.quantity + ladderLen b.bids + 1) b o []).1.asks := h
      rw [hasks] at h2
      exact h2

theorem addToBook_fifo (b : OrderBook) (o : Order) (hs : bookSorted b)
    (hfresh : ∀ i ∈ bookIds b, i < o.order_id) :
    bookSorted (addToBook b o) := by
  unfold addToBook
  cases hside : o.side <;> dsimp only
  · split
    · exact hs
    · rename_i hlen
      have hmem := getD_mem_of_lt (Nat.lt_of_not_le hlen)
      refine ⟨?_, hs.2⟩
      intro l hl
      rcases List.mem_or_eq_of_mem_set hl with h | rfl
      · exact hs.1 l h
      · unfold levelSorted levelIds appendLevel
        dsimp only
        rw [List.map_append]
        simp only [List.map_cons, List.map_nil]
        apply strictlyIncreasing_append_one
        · exact hs.1 _ hmem
        · intro x hx
          rcases List.mem_map.mp hx with ⟨p, hp, rfl⟩
          exact hfresh p.order_id (List.mem_append.mpr
            (Or.inl (mem_ladderIds.mpr ⟨_, hmem, List.mem_map_of_mem _ hp⟩)))
  · split
    · exact hs
    · rename_i hlen
      have hmem := getD_mem_of_lt (Nat.lt_of_not_le hlen)
      refine ⟨hs.1, ?_⟩
      intro l hl
      rcases List.mem_or_eq_of_mem_set hl with h | rfl
      · exact hs.2 l h
      · unfold levelSorted levelIds appendLevel
        dsimp only
        rw [List.map_append]
        simp only [List.map_cons, List.map_nil]
        apply strictlyIncreasing_append_one
        · exact hs.2 _ hmem
        · intro x hx
          rcases List.mem_map.mp hx with ⟨p, hp, rfl⟩
          exact hfresh p.order_id (List.mem_append.mpr
            (Or.inr (mem_ladderIds.mpr ⟨_, hmem, List.mem_map_of_mem _ hp⟩)))

/-- Claim C6 (amended): in the HFT-System-CPP book, resident orders within
any single price level stay oldest-first from head to tail (ids strictly
increasing, ids being assigned in arrival order) across every `addOrder`,
provided each admitted order is younger (has a larger id) than every
resident order: matching consumes only level heads — decrementing a
partially filled head in place — and booking appends at the tail.
Concretely, with bids id 1 (qty 10) and id 2 (qty 5) resting at 50, a
sell of 4 leaves the level as id 1 (qty 6) then id 2 (qty 5): the
partially filled head keeps its front position.  The OrderBook-Engine
matcher violates the original claim by re-enqueueing a partial fill at
the back of its level (see the counterexample). -/
theorem hft_level_fifo_preserved :
    (∀ (b : OrderBook) (o : Order), bookSorted b →
      (∀ i ∈ bookIds b, i < o.order_id) → bookSorted (addOrder b o).2.1) ∧
    (partialFillBook.bids.getD 2 emptyLevel).orders.map (fun x => (x.order_id, x.quantity))
      = [(1, 6), (2, 5)] := by
  constructor
  · intro b o hs hfresh
    obtain ⟨hms, hmsub⟩ := matchOrder_fifo b o hs
    obtain ⟨_, _, _, _, _, _, hid⟩ := matchOrder_frame b o
    unfold addOrder
    dsimp only
    split
    · apply addToBook_fifo _ _ hms
      intro i hi
      rw [hid]
      exact hfresh i (hmsub i hi)
    · exact hms
  · decide

/-- Claim C6 witness: the preservation half applied to the concrete book
holding bids id 1 and id 2 at price 50 and the incoming sell id 3 (which
partially fills the head). -/
theorem hft_level_fifo_preserved_witness :
    bookSorted (addOrder twoBidsBook
      { order_id := 3, price := 50, quantity := 4, side := Side.sell, timestamp := 0 }).2.1 :=
  hft_level_fifo_preserved.1 twoBidsBook
    { order_id := 3, price := 50, quantity := 4, side := Side.sell, timestamp := 0 }
    (by decide) (by decide)
